import Mathlib

/-!
Verification of the availability-grid engine of the plan-cake backend
(`src/api`), against the claims of its natural-language specification.

Encoding conventions used throughout this shallow embedding:

* A timeslot identity is one natural number (`Slot`), counting minutes:
  `day * 1440 + minuteOfDay`.
  - For a SPECIFIC_DATES event a `datetime` timeslot is `date * 1440 + time`
    (dates as day numbers); comparison of `datetime`s coincides with `Nat`
    comparison of the codes.
  - For a GENERIC_WEEKDAYS event a `(weekday, time-of-day)` pair is
    `weekday * 1440 + time`; the lexicographic `(weekday, timeslot)` ordering
    used by the code's `order_by` coincides with `Nat` comparison of the codes.
  Both `get_event_grid` day-count formulas (`last date - first date + 1` and
  `last weekday - first weekday + 1`) become `slotDay last - slotDay first + 1`.
* Times of day are minutes (`9:00` is `540`); dates are day numbers.
* Database tables are lists of rows; `order_by` queries are modelled with
  `List.insertionSort (· ≤ ·)`.  The per-(participant, timeslot) availability
  relation is modelled as a function `PID → Slot → Option Bool`, which is
  exactly a table satisfying the `unique_participant_*_timeslot` constraints
  declared in `src/api/models.py`.
* The current actor (`request.user`, always present behind `@require_auth`)
  is an opaque id `PID`.
-/

deriving instance DecidableEq for Except

/-- Timeslot identity: `day * 1440 + minuteOfDay` (see module docstring). -/
abbrev Slot := Nat

/-- Opaque actor id (a `UserAccount` reference). -/
abbrev PID := Nat

/-- The day (date number, or weekday) of a slot code. -/
def slotDay (s : Slot) : Nat := s / 1440

/-- The time-of-day (in minutes) of a slot code. -/
def slotTime (s : Slot) : Nat := s % 1440

/-- Build a slot code from a day and a time-of-day in minutes. -/
def mkSlot (d m : Nat) : Slot := d * 1440 + m

/-- The loop of `timerange` (src/api/event/utils.py, lines 74-83):
`while current < end_dt: yield current.time(); current += timedelta(minutes=15)`.
`cur` and `endM` are minutes of the same day, so `datetime` comparison is
comparison of the minute counts, and each yielded `current.time()` is `cur`
(the loop never crosses midnight while the guard holds). -/
def timerangeAux (cur endM : Nat) : List Nat :=
  if cur < endM then cur :: timerangeAux (cur + 15) endM else []
termination_by endM - cur
decreasing_by omega

/-- `timerange(start_hour, end_hour)` from src/api/event/utils.py.
`time(start_hour)` raises `ValueError` when `start_hour > 23`, and
`time(end_hour)` raises when `end_hour > 23` unless `end_hour == 24`, which is
mapped to `time(23, 59)`; `none` models the raise.  Otherwise the generator
yields `start_hour:00, start_hour:15, ...` while strictly below the end time. -/
def timerange (startHour endHour : Nat) : Option (List Nat) :=
  if 24 ≤ startHour then none
  else if 24 < endHour then none
  else some (timerangeAux (startHour * 60) (if endHour = 24 then 23 * 60 + 59 else endHour * 60))

/-- `daterange(start_date, end_date)` from src/api/event/utils.py:
`while current <= end_date: yield current; current += timedelta(days=1)`. -/
def daterange (s e : Nat) : List Nat :=
  if s ≤ e then s :: daterange (s + 1) e else []
termination_by e + 1 - s
decreasing_by omega

/-- `validate_date_input` from src/api/event/utils.py (lines 86-111), as the
list of error keys of the returned `errors` dict (the dict is empty iff this
list is; the `editing` flag only selects the message text for the
`start_date` key, so it is not modelled).  `MAX_EVENT_DAYS` is imported from
`api.settings` but not defined in the sources under src/, so it is passed as
the parameter `maxEventDays`; in Python `(end_date - start_date).days` is
negative when `start_date > end_date`, and then the `> MAX_EVENT_DAYS` test is
false, matching truncated `Nat` subtraction. -/
def validate_date_input (maxEventDays startDate endDate startHour endHour earliestDate : Nat) :
    List String :=
  (if startDate < earliestDate then ["start_date"] else []) ++
  (if startDate > endDate then ["end_date"] else []) ++
  (if startHour ≥ endHour then ["end_hour"] else []) ++
  (if endDate - startDate > maxEventDays then ["end_date"] else [])

/-- `validate_weekday_input` from src/api/event/utils.py (lines 114-120),
as the list of error keys. -/
def validate_weekday_input (startWeekday endWeekday startHour endHour : Nat) : List String :=
  (if startWeekday > endWeekday then ["end_weekday"] else []) ++
  (if startHour ≥ endHour then ["end_hour"] else [])

/-- The timeslot list produced by the nested creation loops
`for date in daterange(start_date, end_date): for time in timerange(...):`
(src/api/event/views.py lines 116-124), given the already-produced list `T`
of times: day-major, time-ascending. -/
def slotGrid (dLo dHi : Nat) (T : List Nat) : List Slot :=
  (daterange dLo dHi).flatMap (fun d => T.map (fun m => mkSlot d m))

/-- The timeslot list produced by the week-event creation loops
`for weekday in range(start_weekday, end_weekday + 1): for time in timerange(...):`
(src/api/event/views.py lines 196-205); `range(a, b)` enumerates
`a, a+1, ..., b-1`. -/
def slotGridW (wLo wHi : Nat) (T : List Nat) : List Slot :=
  (List.range' wLo (wHi + 1 - wLo)).flatMap (fun w => T.map (fun m => mkSlot w m))

/-- `UserEvent.EventType` (src/api/models.py): `SPECIFIC` dates or `GENERIC`
weekdays. -/
inductive EventKind
  | specific
  | generic
deriving DecidableEq

/-- The persistent state of one event and its dependents: the timeslot table
restricted to this event (`slots`, rows by identity), the participant table
(`parts`, rows keyed by actor id, with `pname`/`ptz` their current
`display_name`/`time_zone` columns), and the availability tables
(`avail`, at most one row per (participant, timeslot), as enforced by the
unique constraints in src/api/models.py). -/
structure EventState where
  kind : EventKind
  slots : List Slot
  parts : List PID
  pname : PID → String
  ptz : PID → String
  avail : PID → Slot → Option Bool

/-- `check_name_available` from src/api/availability/utils.py (lines 41-53),
in the `if user:` branch (the actor is always known behind `@require_auth`):
the name is available iff no participant row of a *different* actor holds
`display_name`. -/
def check_name_available (σ : EventState) (p : PID) (name : String) : Prop :=
  ¬ ∃ q ∈ σ.parts, q ≠ p ∧ σ.pname q = name

instance (σ : EventState) (p : PID) (name : String) :
    Decidable (check_name_available σ p name) :=
  inferInstanceAs (Decidable ¬ _)

/-- Outcome of `get_event_grid`: `dimension` is `EventGridDimensionError`;
`emptyCrash` is the `AttributeError` (`None.timeslot`) that an empty timeslot
table causes on `timeslots.first()` / `.last()` — *not* a dimension error. -/
inductive GridFault
  | dimension
  | emptyCrash
deriving DecidableEq

/-- `get_event_grid` from src/api/availability/utils.py (lines 17-38).
The queryset ordered by `timeslot` (resp. `(weekday, timeslot)`) is the
insertion sort of the rows by slot code; `first()`/`last()` are its head and
last element; `num_days` is `slotDay last - slotDay first + 1` (both event
kinds, see module docstring); `num_slots = count / num_days`, with
`EventGridDimensionError` unless the division is exact. -/
def get_event_grid (slots : List Slot) : Except GridFault (List Slot × Nat × Nat) :=
  match slots.insertionSort (· ≤ ·) with
  | [] => .error .emptyCrash
  | first :: rest =>
    let numDays := slotDay ((first :: rest).getLast (List.cons_ne_nil _ _)) - slotDay first + 1
    if (first :: rest).length % numDays = 0 then
      .ok (first :: rest, numDays, (first :: rest).length / numDays)
    else .error .dimension

/-- Errors of `create_date_event` / `create_week_event` that concern the grid:
`badInput` bundles the serializer bound violations (hours outside `0..24`,
weekdays outside `0..6`, from src/api/event/serializers.py) with a non-empty
`validate_*_input` result; `unexpected` is an in-transaction exception
(e.g. `ValueError` from `time()`), answered with the generic 500. -/
inductive CreateErr
  | badInput
  | unexpected
deriving DecidableEq

/-- `create_date_event` from src/api/event/views.py (lines 64-134), grid
content only (title/duration/url-code handling does not touch the grid).
`userDate` is `datetime.now(ZoneInfo(time_zone)).date()`.  On success the new
event has the timeslots of the nested loops and no participants. -/
def create_date_event (maxEventDays userDate startDate endDate startHour endHour : Nat) :
    Except CreateErr EventState :=
  if 24 < startHour ∨ 24 < endHour then .error .badInput
  else if validate_date_input maxEventDays startDate endDate startHour endHour userDate ≠ [] then
    .error .badInput
  else match timerange startHour endHour with
  | none => .error .unexpected
  | some T =>
    .ok { kind := .specific
          slots := slotGrid startDate endDate T
          parts := []
          pname := fun _ => ""
          ptz := fun _ => ""
          avail := fun _ _ => none }

/-- `create_week_event` from src/api/event/views.py (lines 144-215), grid
content only; serializer bounds are weekdays in `0..6`, hours in `0..24`. -/
def create_week_event (startWeekday endWeekday startHour endHour : Nat) :
    Except CreateErr EventState :=
  if 6 < startWeekday ∨ 6 < endWeekday ∨ 24 < startHour ∨ 24 < endHour then .error .badInput
  else if validate_weekday_input startWeekday endWeekday startHour endHour ≠ [] then
    .error .badInput
  else match timerange startHour endHour with
  | none => .error .unexpected
  | some T =>
    .ok { kind := .generic
          slots := slotGridW startWeekday endWeekday T
          parts := []
          pname := fun _ => ""
          ptz := fun _ => ""
          avail := fun _ _ => none }

/-- Error responses of `add_availability` (src/api/availability/views.py):
`nameTaken` is the in-transaction 400 return; `shapeDays`/`shapeTimes` are the
`AvailabilityInputInvalidError` raises; `gridFault` is `EventGridDimensionError`
(or the crash of `get_event_grid` on an empty table); `indexCrash` is the
`IndexError` of `flattened_availability[i]`; `db` is a `DatabaseError` from any
of the writes.  All raises escape the `transaction.atomic()` block, rolling
back every write of the request. -/
inductive SubmitErr
  | nameTaken
  | shapeDays
  | shapeTimes
  | gridFault
  | indexCrash
  | db
deriving DecidableEq

/-- `add_availability` from src/api/availability/views.py (lines 56-175), for
an actor `p` on the (found) event `σ`.  Returns the response
(`.ok new` is the 201 with "added"/"updated" per the `new` flag of
`get_or_create`) together with the committed state: the state written by the
block for a normal return, the unchanged `σ` when an exception rolls the
transaction back.  `dbOk := false` injects a `DatabaseError` into the first
write of the block.  Steps in source order: display-name check (an early 400
*return*, before any write, so it commits the unchanged state), grid lookup,
shape validation, participant upsert, full delete of the participant's
availability rows, and bulk insert of one row per ordered timeslot zipped with
the day-major flattening `[t for day in availability for t in day]`. -/
def add_availability (σ : EventState) (p : PID) (name tz : String)
    (availability : List (List Bool)) (dbOk : Bool) :
    Except SubmitErr Bool × EventState :=
  if ¬ check_name_available σ p name then (.error .nameTaken, σ)
  else match get_event_grid σ.slots with
  | .error _ => (.error .gridFault, σ)
  | .ok (timeslots, numDays, numTimes) =>
    if availability.length ≠ numDays then (.error .shapeDays, σ)
    else if ∃ day ∈ availability, day.length ≠ numTimes then (.error .shapeTimes, σ)
    else if ¬ dbOk then (.error .db, σ)
    else if timeslots.length > (availability.flatMap id).length then (.error .indexCrash, σ)
    else
      (.ok (p ∉ σ.parts),
       { σ with
          parts := if p ∈ σ.parts then σ.parts else p :: σ.parts
          pname := fun q => if q = p then name else σ.pname q
          ptz := fun q => if q = p then tz else σ.ptz q
          avail := fun q s =>
            if q = p then (timeslots.zip (availability.flatMap id)).lookup s
            else σ.avail q s })

/-- Error responses of the two edit endpoints: `notFound` is
`UserEvent.DoesNotExist` (wrong code, wrong creator, or wrong `date_type`);
`badInput` a serializer bound violation; `validation` the in-transaction 400
return for a non-empty `validate_*_input` result (before any write);
`unexpected` any other in-block exception (e.g. `timeslots.first()` on an
empty table); `db` a `DatabaseError` from the writes. -/
inductive EditErr
  | notFound
  | badInput
  | validation
  | unexpected
  | db
deriving DecidableEq

/-- `edit_date_event` from src/api/event/views.py (lines 240-335) for the
(found) event `σ` of its creator.  `userDate` is today in the creator-supplied
time zone.  The earliest allowed start date is computed by
`earliest_date = user_date; if existing_start_date > user_date:
earliest_date = existing_start_date` (lines 276-278).  On success the timeslot
rows matching `to_delete = existing - edited` are deleted (cascading their
availability rows), `to_add = edited - existing` rows are inserted, and an
`is_available=False` row is inserted for every current participant on every
added slot.  A validation failure returns 400 from inside the transaction
before any write; exceptions roll back. -/
def edit_date_event (σ : EventState) (maxEventDays userDate startDate endDate startHour endHour : Nat)
    (dbOk : Bool) : Except EditErr Unit × EventState :=
  if 24 < startHour ∨ 24 < endHour then (.error .badInput, σ)
  else if σ.kind ≠ .specific then (.error .notFound, σ)
  else match (σ.slots.insertionSort (· ≤ ·)).head? with
  | none => (.error .unexpected, σ)
  | some firstSlot =>
    if validate_date_input maxEventDays startDate endDate startHour endHour
        (if slotDay firstSlot > userDate then slotDay firstSlot else userDate) ≠ [] then
      (.error .validation, σ)
    else match timerange startHour endHour with
    | none => (.error .unexpected, σ)
    | some T =>
      if ¬ dbOk then (.error .db, σ)
      else
        let edited := slotGrid startDate endDate T
        let toDelete := σ.slots.filter (fun s => s ∉ edited)
        let toAdd := edited.filter (fun s => s ∉ σ.slots)
        (.ok (),
         { σ with
            slots := σ.slots.filter (fun s => s ∉ toDelete) ++ toAdd
            avail := fun q s =>
              if s ∈ toDelete then none
              else if q ∈ σ.parts ∧ s ∈ toAdd then some false
              else σ.avail q s })

/-- `edit_week_event` from src/api/event/views.py (lines 342-429); same diff
scheme as the date edit (the `Q`-object delete matches exactly the
`to_delete` pairs), with `validate_weekday_input` and no earliest-date rule. -/
def edit_week_event (σ : EventState) (startWeekday endWeekday startHour endHour : Nat)
    (dbOk : Bool) : Except EditErr Unit × EventState :=
  if 6 < startWeekday ∨ 6 < endWeekday ∨ 24 < startHour ∨ 24 < endHour then (.error .badInput, σ)
  else if σ.kind ≠ .generic then (.error .notFound, σ)
  else if validate_weekday_input startWeekday endWeekday startHour endHour ≠ [] then
    (.error .validation, σ)
  else match timerange startHour endHour with
  | none => (.error .unexpected, σ)
  | some T =>
    if ¬ dbOk then (.error .db, σ)
    else
      let edited := slotGridW startWeekday endWeekday T
      let toDelete := σ.slots.filter (fun s => s ∉ edited)
      let toAdd := edited.filter (fun s => s ∉ σ.slots)
      (.ok (),
       { σ with
          slots := σ.slots.filter (fun s => s ∉ toDelete) ++ toAdd
          avail := fun q s =>
            if s ∈ toDelete then none
            else if q ∈ σ.parts ∧ s ∈ toAdd then some false
            else σ.avail q s })

/-- `get_weekday_date` from src/api/availability/utils.py (lines 56-57):
`datetime(2012, 1, weekday + 1, timeslot.hour, timeslot.minute)`, encoded as
a minute count inside January 2012, i.e. `(weekday + 1) * 1440 + time`
(the `2012-01` anchor contributes a constant to every value and is dropped;
the encoding is injective and monotone in `(weekday, time)`). -/
def get_weekday_date (weekday timeslot : Nat) : Nat :=
  (weekday + 1) * 1440 + timeslot

/-- Error responses of `get_self_availability`: `notParticipant` is
`EventParticipant.DoesNotExist` (400); `generic` is the generic 500 from the
catch-all `except Exception` handler. -/
inductive SelfErr
  | notParticipant
  | generic
deriving DecidableEq

/-- `get_self_availability` from src/api/availability/views.py (lines
224-286) for actor `p` on the (found) event `σ`.  The participant's
availability rows with `is_available=True`, ordered by timeslot (resp.
`(weekday, timeslot)`), are the sorted event timeslots carrying a `true` row
(every availability row references an existing timeslot row of this event via
its foreign key).  For a SPECIFIC event the timeslot values are returned.  For
a GENERIC event the code first evaluates `availabilities[0]` in a debug
`print`, which raises `IndexError` on an empty queryset — caught by the
catch-all handler and answered with the generic 500; otherwise the values are
mapped through `get_weekday_date`. -/
def get_self_availability (σ : EventState) (p : PID) : Except SelfErr (List Nat) :=
  if p ∉ σ.parts then .error .notParticipant
  else
    let avs := (σ.slots.insertionSort (· ≤ ·)).filter (fun s => σ.avail p s = some true)
    match σ.kind with
    | .specific => .ok avs
    | .generic =>
      if avs.isEmpty then .error .generic
      else .ok (avs.map (fun s => get_weekday_date (slotDay s) (slotTime s)))

/-- The zero-participant branch of `get_all_availability`
(src/api/availability/views.py, lines 306-320): when the event has no
participants, the response is `participants = []` together with
`[[[] for _ in range(num_times)] for _ in range(num_days)]` for the grid shape
from `get_event_grid`; `none` when the branch is not taken or the grid lookup
raises (the latter answered with the generic 500). -/
def get_all_availability_no_participants (σ : EventState) :
    Option (List String × List (List (List String))) :=
  if σ.parts = [] then
    match get_event_grid σ.slots with
    | .error _ => none
    | .ok (_, numDays, numTimes) =>
      some ([], List.replicate numDays (List.replicate numTimes ([] : List String)))
  else none

/-- Result of the two participant-removal endpoints. -/
inductive RemoveErr
  | notParticipant
deriving DecidableEq

/-- `remove_self_availability` from src/api/availability/views.py (lines
421-452): deleting the participant row cascades all its availability rows. -/
def remove_self_availability (σ : EventState) (p : PID) : Except RemoveErr Unit × EventState :=
  if p ∈ σ.parts then
    (.ok (),
     { σ with
        parts := σ.parts.filter (fun q => q ≠ p)
        avail := fun q s => if q = p then none else σ.avail q s })
  else (.error .notParticipant, σ)

/-- `remove_availability` from src/api/availability/views.py (lines 459-497):
the creator removes a participant by display name; `EventParticipant.objects.get`
succeeds only when exactly one row matches (zero raises `DoesNotExist`,
several raise `MultipleObjectsReturned`, both leaving the state unchanged). -/
def remove_availability (σ : EventState) (name : String) : Except RemoveErr Unit × EventState :=
  match σ.parts.filter (fun q => σ.pname q = name) with
  | [p] =>
    (.ok (),
     { σ with
        parts := σ.parts.filter (fun q => q ≠ p)
        avail := fun q s => if q = p then none else σ.avail q s })
  | _ => (.error .notParticipant, σ)

/-- The events reachable through the creation path followed by any sequence
of availability submissions, grid edits and participant removals, with inputs
ranging over everything the serializers admit. -/
inductive Reachable : EventState → Prop
  | create_date {maxEventDays userDate startDate endDate startHour endHour : Nat} {σ : EventState}
      (h : create_date_event maxEventDays userDate startDate endDate startHour endHour = .ok σ) :
      Reachable σ
  | create_week {startWeekday endWeekday startHour endHour : Nat} {σ : EventState}
      (h : create_week_event startWeekday endWeekday startHour endHour = .ok σ) :
      Reachable σ
  | submit {σ : EventState} (p : PID) (name tz : String) (availability : List (List Bool))
      (dbOk : Bool) (hσ : Reachable σ) :
      Reachable (add_availability σ p name tz availability dbOk).2
  | edit_date {σ : EventState} (maxEventDays userDate startDate endDate startHour endHour : Nat)
      (dbOk : Bool) (hσ : Reachable σ) :
      Reachable (edit_date_event σ maxEventDays userDate startDate endDate startHour endHour dbOk).2
  | edit_week {σ : EventState} (startWeekday endWeekday startHour endHour : Nat)
      (dbOk : Bool) (hσ : Reachable σ) :
      Reachable (edit_week_event σ startWeekday endWeekday startHour endHour dbOk).2
  | remove_self {σ : EventState} (p : PID) (hσ : Reachable σ) :
      Reachable (remove_self_availability σ p).2
  | remove_other {σ : EventState} (name : String) (hσ : Reachable σ) :
      Reachable (remove_availability σ name).2

/-- A SPECIFIC_DATES event spanning the single day 5 with hours 9-10
(slots 9:00, 9:15, 9:30, 9:45) and no participants. -/
def pastDateEvent : EventState :=
  { kind := .specific
    slots := [mkSlot 5 540, mkSlot 5 555, mkSlot 5 570, mkSlot 5 585]
    parts := []
    pname := fun _ => ""
    ptz := fun _ => ""
    avail := fun _ _ => none }

/-- A SPECIFIC_DATES event spanning the single day 20 with hours 9-10 and no
participants. -/
def futureDateEvent : EventState :=
  { kind := .specific
    slots := [mkSlot 20 540, mkSlot 20 555, mkSlot 20 570, mkSlot 20 585]
    parts := []
    pname := fun _ => ""
    ptz := fun _ => ""
    avail := fun _ _ => none }

/-- A SPECIFIC_DATES event spanning day 20 (hours 9-10) with one participant
(actor 1, "Alice") marked available everywhere. -/
def editBaseEvent : EventState :=
  { kind := .specific
    slots := [mkSlot 20 540, mkSlot 20 555, mkSlot 20 570, mkSlot 20 585]
    parts := [1]
    pname := fun _ => "Alice"
    ptz := fun _ => "UTC"
    avail := fun q _ => if q = 1 then some true else none }

/-- A GENERIC_WEEKDAYS event spanning Monday (weekday 0) with hours 9-10 and
no participants. -/
def weekEvent : EventState :=
  { kind := .generic
    slots := [mkSlot 0 540, mkSlot 0 555, mkSlot 0 570, mkSlot 0 585]
    parts := []
    pname := fun _ => ""
    ptz := fun _ => ""
    avail := fun _ _ => none }

/-- A GENERIC_WEEKDAYS event with one participant (actor 1) all of whose
availability rows have `is_available = False`. -/
def weekNoTrue : EventState :=
  { kind := .generic
    slots := [mkSlot 0 540, mkSlot 0 555, mkSlot 0 570, mkSlot 0 585]
    parts := [1]
    pname := fun _ => "Alice"
    ptz := fun _ => "UTC"
    avail := fun _ _ => some false }

/-- A SPECIFIC_DATES event with one participant (actor 1) all of whose
availability rows have `is_available = False`. -/
def dateNoTrue : EventState :=
  { kind := .specific
    slots := [mkSlot 5 540, mkSlot 5 555, mkSlot 5 570, mkSlot 5 585]
    parts := [1]
    pname := fun _ => "Alice"
    ptz := fun _ => "UTC"
    avail := fun _ _ => some false }

/-- A SPECIFIC_DATES event whose only participant is actor 0 under the
display name "Alice". -/
def namedEvent : EventState :=
  { kind := .specific
    slots := [mkSlot 5 540, mkSlot 5 555, mkSlot 5 570, mkSlot 5 585]
    parts := [0]
    pname := fun _ => "Alice"
    ptz := fun _ => "UTC"
    avail := fun _ _ => none }

/-- Rectangularity of a timeslot table: it holds, up to row order, exactly the
product grid of a contiguous day range and one fixed non-empty ascending list
of times of day (each below 24h).  This is the shape every creation and edit
path writes. -/
def IsRect (slots : List Slot) : Prop :=
  ∃ dLo dHi T, dLo ≤ dHi ∧ T ≠ [] ∧ T.Sorted (· < ·) ∧ (∀ m ∈ T, m < 1440) ∧
    slots.Perm (slotGrid dLo dHi T)

/-- No two participant rows of the event hold the same display name. -/
def NamesDistinct (σ : EventState) : Prop :=
  ∀ p ∈ σ.parts, ∀ q ∈ σ.parts, p ≠ q → σ.pname p ≠ σ.pname q

theorem timerangeAux_mem {c e x : Nat} :
    x ∈ timerangeAux c e ↔ ∃ k, x = c + 15 * k ∧ x < e := by
  induction c, e using timerangeAux.induct with
  | case1 c e h ih =>
    rw [timerangeAux, if_pos h]
    simp only [List.mem_cons, ih]
    constructor
    · rintro (rfl | ⟨k, rfl, hk⟩)
      · exact ⟨0, by omega, h⟩
      · exact ⟨k + 1, by ring_nf, by omega⟩
    · rintro ⟨k, rfl, hk⟩
      match k with
      | 0 => exact Or.inl (by omega)
      | k + 1 => exact Or.inr ⟨k, by ring_nf, by omega⟩
  | case2 c e h =>
    rw [timerangeAux, if_neg h]
    simp only [List.not_mem_nil, false_iff]
    rintro ⟨k, rfl, hk⟩
    omega

theorem timerangeAux_sorted (c e : Nat) : (timerangeAux c e).Sorted (· < ·) := by
  induction c, e using timerangeAux.induct with
  | case1 c e h ih =>
    rw [timerangeAux, if_pos h]
    rw [List.sorted_cons]
    refine ⟨fun x hx => ?_, ih⟩
    rcases timerangeAux_mem.1 hx with ⟨k, rfl, -⟩
    omega
  | case2 c e h =>
    rw [timerangeAux, if_neg h]
    exact List.sorted_nil

theorem timerangeAux_head {c e : Nat} (h : c < e) :
    (timerangeAux c e).head? = some c := by
  rw [timerangeAux, if_pos h, List.head?_cons]

theorem daterange_mem {s e d : Nat} : d ∈ daterange s e ↔ s ≤ d ∧ d ≤ e := by
  induction s, e using daterange.induct with
  | case1 s e h ih =>
    rw [daterange, if_pos h]
    simp only [List.mem_cons, ih]
    omega
  | case2 s e h =>
    rw [daterange, if_neg h]
    simp only [List.not_mem_nil, false_iff]
    omega

theorem daterange_eq_range' (s e : Nat) : daterange s e = List.range' s (e + 1 - s) := by
  induction s, e using daterange.induct with
  | case1 s e h ih =>
    have hn : e + 1 - s = (e + 1 - (s + 1)) + 1 := by omega
    rw [daterange, if_pos h, hn, List.range'_succ, ih]
  | case2 s e h =>
    have hn : e + 1 - s = 0 := by omega
    rw [daterange, if_neg h, hn, List.range'_zero]

theorem daterange_length (s e : Nat) : (daterange s e).length = e + 1 - s := by
  rw [daterange_eq_range', List.length_range']

theorem daterange_sorted (s e : Nat) : (daterange s e).Sorted (· < ·) := by
  rw [daterange_eq_range']
  have := List.pairwise_lt_range' s (e + 1 - s) 1 (by omega)
  simpa [List.Sorted] using this

theorem slotGridW_eq_slotGrid (a b : Nat) (T : List Nat) : slotGridW a b T = slotGrid a b T := by
  rw [slotGridW, slotGrid, daterange_eq_range']

theorem slotGrid_mem {dLo dHi : Nat} {T : List Nat} {s : Slot} :
    s ∈ slotGrid dLo dHi T ↔ ∃ d m, dLo ≤ d ∧ d ≤ dHi ∧ m ∈ T ∧ s = mkSlot d m := by
  simp only [slotGrid, List.mem_flatMap, List.mem_map, daterange_mem]
  constructor
  · rintro ⟨d, ⟨h1, h2⟩, m, hm, rfl⟩
    exact ⟨d, m, h1, h2, hm, rfl⟩
  · rintro ⟨d, m, h1, h2, hm, rfl⟩
    exact ⟨d, ⟨h1, h2⟩, m, hm, rfl⟩

theorem slotGrid_length (dLo dHi : Nat) (T : List Nat) :
    (slotGrid dLo dHi T).length = (dHi + 1 - dLo) * T.length := by
  rw [slotGrid, List.length_flatMap]
  have h : ∀ D : List Nat,
      (List.map (List.length ∘ fun d => T.map (fun m => mkSlot d m)) D).sum
        = D.length * T.length := by
    intro D
    induction D with
    | nil => simp
    | cons a D ih =>
      simp only [List.map_cons, List.sum_cons, List.length_cons, ih, Function.comp,
        List.length_map]
      ring
  rw [h, daterange_length]

theorem mkSlot_day {d m : Nat} (hm : m < 1440) : slotDay (mkSlot d m) = d := by
  unfold slotDay mkSlot
  omega

theorem mkSlot_time {d m : Nat} (hm : m < 1440) : slotTime (mkSlot d m) = m := by
  unfold slotTime mkSlot
  omega

theorem mkSlot_inj {d m d' m' : Nat} (hm : m < 1440) (hm' : m' < 1440) :
    mkSlot d m = mkSlot d' m' ↔ d = d' ∧ m = m' := by
  constructor
  · intro h
    have h2 : d * 1440 + m = d' * 1440 + m' := h
    omega
  · rintro ⟨rfl, rfl⟩
    rfl

theorem mkSlot_mono {d m d' m' : Nat} (hd : d ≤ d') (hmm : m ≤ m') :
    mkSlot d m ≤ mkSlot d' m' := by
  unfold mkSlot
  calc d * 1440 + m ≤ d' * 1440 + m := by
        exact Nat.add_le_add_right (Nat.mul_le_mul_right 1440 hd) m
    _ ≤ d' * 1440 + m' := Nat.add_le_add_left hmm _

theorem slotGrid_nodup {dLo dHi : Nat} {T : List Nat} (hT : T.Nodup)
    (hB : ∀ m ∈ T, m < 1440) : (slotGrid dLo dHi T).Nodup := by
  rw [slotGrid, List.flatMap_def, List.nodup_flatten]
  constructor
  · rintro l hl
    rcases List.mem_map.1 hl with ⟨d, -, rfl⟩
    refine hT.map (fun m m' hmm => ?_)
    have h2 : d * 1440 + m = d * 1440 + m' := hmm
    omega
  · rw [List.pairwise_map]
    have hpw := daterange_sorted dLo dHi
    refine hpw.imp ?_
    intro d d' hdd x hx hx'
    rcases List.mem_map.1 hx with ⟨m, hm, rfl⟩
    rcases List.mem_map.1 hx' with ⟨m', hm', hmm⟩
    have h1 := hB m hm
    have h2 := hB m' hm'
    have h3 : d' * 1440 + m' = d * 1440 + m := hmm
    omega

theorem sorted_head_le {a x : Nat} {t : List Nat} (hs : (a :: t).Sorted (· ≤ ·))
    (hx : x ∈ a :: t) : a ≤ x := by
  rcases List.mem_cons.1 hx with rfl | hx
  · exact Nat.le_refl x
  · exact (List.sorted_cons.1 hs).1 x hx

theorem sorted_le_getLast :
    ∀ {l : List Nat}, l.Sorted (· ≤ ·) → (hne : l ≠ []) → ∀ x ∈ l, x ≤ l.getLast hne := by
  intro l
  induction l with
  | nil => exact fun _ hne => absurd rfl hne
  | cons a t ih =>
    intro hs hne x hx
    rcases List.mem_cons.1 hx with rfl | hx
    · cases t with
      | nil => simp
      | cons b t2 =>
        rw [List.getLast_cons (List.cons_ne_nil _ _)]
        exact Nat.le_trans ((List.sorted_cons.1 hs).1 b (List.mem_cons_self _ _))
          (ih (List.sorted_cons.1 hs).2 (List.cons_ne_nil _ _) b (List.mem_cons_self _ _))
    · have htne : t ≠ [] := List.ne_nil_of_mem hx
      rw [List.getLast_cons htne]
      exact ih (List.sorted_cons.1 hs).2 htne x hx

theorem validate_date_ok {maxD sd ed sh eh early : Nat}
    (h : validate_date_input maxD sd ed sh eh early = []) :
    early ≤ sd ∧ sd ≤ ed ∧ sh < eh ∧ ed - sd ≤ maxD := by
  unfold validate_date_input at h
  by_cases h1 : sd < early <;> by_cases h2 : sd > ed <;> by_cases h3 : sh ≥ eh <;>
    by_cases h4 : ed - sd > maxD <;> simp [h1, h2, h3, h4] at h <;> omega

theorem validate_weekday_ok {sw ew sh eh : Nat}
    (h : validate_weekday_input sw ew sh eh = []) :
    sw ≤ ew ∧ sh < eh := by
  unfold validate_weekday_input at h
  by_cases h1 : sw > ew <;> by_cases h3 : sh ≥ eh <;> simp [h1, h3] at h <;> omega

theorem timerange_some {sh eh : Nat} (h1 : sh < eh) (h2 : eh ≤ 24) :
    ∃ T, timerange sh eh = some T ∧ T ≠ [] ∧ T.Sorted (· < ·) ∧
      (∀ m ∈ T, m < 1440) ∧ T.head? = some (sh * 60) ∧
      (∀ m ∈ T, ∃ k, m = sh * 60 + 15 * k ∧ m < eh * 60) := by
  have hsh : ¬ 24 ≤ sh := by omega
  have heh : ¬ 24 < eh := by omega
  refine ⟨_, by rw [timerange, if_neg hsh, if_neg heh], ?_, timerangeAux_sorted _ _, ?_, ?_, ?_⟩
  · intro hnil
    have : sh * 60 ∈ timerangeAux (sh * 60) (if eh = 24 then 23 * 60 + 59 else eh * 60) := by
      rw [timerangeAux_mem]
      refine ⟨0, by omega, ?_⟩
      by_cases h24 : eh = 24 <;> simp [h24] <;> omega
    rw [hnil] at this
    exact List.not_mem_nil _ this
  · intro m hm
    rcases timerangeAux_mem.1 hm with ⟨k, rfl, hk⟩
    by_cases h24 : eh = 24 <;> simp [h24] at hk <;> omega
  · exact timerangeAux_head (by by_cases h24 : eh = 24 <;> simp [h24] <;> omega)
  · intro m hm
    rcases timerangeAux_mem.1 hm with ⟨k, rfl, hk⟩
    by_cases h24 : eh = 24 <;> simp [h24] at hk <;> exact ⟨k, rfl, by omega⟩

theorem get_event_grid_cons {slots : List Slot} {first : Slot} {rest : List Slot}
    (hL : slots.insertionSort (· ≤ ·) = first :: rest) :
    get_event_grid slots =
      if (first :: rest).length %
          (slotDay ((first :: rest).getLast (List.cons_ne_nil _ _)) - slotDay first + 1) = 0 then
        Except.ok (first :: rest,
          slotDay ((first :: rest).getLast (List.cons_ne_nil _ _)) - slotDay first + 1,
          (first :: rest).length /
            (slotDay ((first :: rest).getLast (List.cons_ne_nil _ _)) - slotDay first + 1))
      else Except.error GridFault.dimension := by
  unfold get_event_grid
  rw [hL]

theorem get_event_grid_rect {slots : List Slot} (h : IsRect slots) :
    ∃ n k, get_event_grid slots = .ok (slots.insertionSort (· ≤ ·), n, k) ∧
      slots.length = n * k ∧ 0 < k := by
  rcases h with ⟨dLo, dHi, T, hd, hTne, hTs, hTb, hperm⟩
  have hpermL : (slots.insertionSort (· ≤ ·)).Perm (slotGrid dLo dHi T) :=
    (List.perm_insertionSort _ _).trans hperm
  have hsorted : (slots.insertionSort (· ≤ ·)).Sorted (· ≤ ·) :=
    List.sorted_insertionSort _ _
  obtain ⟨t0, T2, hT0⟩ : ∃ t0 T2, T = t0 :: T2 := by
    match T, hTne with
    | t0 :: T2, _ => exact ⟨t0, T2, rfl⟩
  have ht0T : t0 ∈ T := by rw [hT0]; exact List.mem_cons_self _ _
  have ht0lt : t0 < 1440 := hTb _ ht0T
  have ht0min : ∀ m ∈ T, t0 ≤ m := by
    intro m hm
    rw [hT0] at hm
    rcases List.mem_cons.1 hm with rfl | hm
    · exact Nat.le_refl m
    · rw [hT0] at hTs
      exact Nat.le_of_lt ((List.sorted_cons.1 hTs).1 m hm)
  have hlen : (slots.insertionSort (· ≤ ·)).length = (dHi + 1 - dLo) * T.length := by
    rw [hpermL.length_eq, slotGrid_length]
  have hTpos : 0 < T.length := by rw [hT0]; simp
  have hlenpos : 0 < (slots.insertionSort (· ≤ ·)).length := by
    rw [hlen]
    have : 0 < dHi + 1 - dLo := by omega
    exact Nat.mul_pos this hTpos
  obtain ⟨first, rest, hL⟩ : ∃ a t, slots.insertionSort (· ≤ ·) = a :: t := by
    match hLL : slots.insertionSort (· ≤ ·), hlenpos with
    | a :: t, _ => exact ⟨a, t, rfl⟩
  -- the head of the ascending sort is the least slot, `mkSlot dLo t0`
  have hminmem : mkSlot dLo t0 ∈ slotGrid dLo dHi T :=
    slotGrid_mem.2 ⟨dLo, t0, Nat.le_refl _, hd, ht0T, rfl⟩
  have hfirstmem : first ∈ slotGrid dLo dHi T := by
    rw [← hpermL.mem_iff, hL]
    exact List.mem_cons_self _ _
  have hfirstle : first ≤ mkSlot dLo t0 := by
    rw [hL] at hsorted hpermL
    exact sorted_head_le hsorted (hpermL.mem_iff.2 hminmem)
  have hfirstday : slotDay first = dLo := by
    rcases slotGrid_mem.1 hfirstmem with ⟨d, m, hd1, hd2, hm, rfl⟩
    have hmb := hTb m hm
    have hcast : d * 1440 + m ≤ dLo * 1440 + t0 := hfirstle
    rw [mkSlot_day hmb]
    omega
  -- the last of the ascending sort is a slot of day `dHi`
  have hLne : slots.insertionSort (· ≤ ·) ≠ [] := by rw [hL]; exact List.cons_ne_nil _ _
  have hmaxmem : mkSlot dHi t0 ∈ slotGrid dLo dHi T :=
    slotGrid_mem.2 ⟨dHi, t0, hd, Nat.le_refl _, ht0T, rfl⟩
  have hlastmem : (slots.insertionSort (· ≤ ·)).getLast hLne ∈ slotGrid dLo dHi T := by
    rw [← hpermL.mem_iff]
    exact List.getLast_mem hLne
  have hlastge : mkSlot dHi t0 ≤ (slots.insertionSort (· ≤ ·)).getLast hLne :=
    sorted_le_getLast hsorted hLne _ (hpermL.mem_iff.2 hmaxmem)
  have hlastday : slotDay ((slots.insertionSort (· ≤ ·)).getLast hLne) = dHi := by
    rcases slotGrid_mem.1 hlastmem with ⟨d, m, hd1, hd2, hm, hEq⟩
    have hmb := hTb m hm
    have hcast : dHi * 1440 + t0 ≤ d * 1440 + m := by rw [hEq] at hlastge; exact hlastge
    rw [hEq, mkSlot_day hmb]
    omega
  refine ⟨dHi - dLo + 1, T.length, ?_, ?_, hTpos⟩
  · rw [get_event_grid_cons hL]
    have hgl : (first :: rest).getLast (List.cons_ne_nil _ _)
        = (slots.insertionSort (· ≤ ·)).getLast hLne :=
      List.getLast_congr _ _ hL.symm
    have hnd : slotDay ((first :: rest).getLast (List.cons_ne_nil _ _)) - slotDay first + 1
        = dHi - dLo + 1 := by
      rw [hgl, hlastday, hfirstday]
    have hml : (first :: rest).length = (dHi + 1 - dLo) * T.length := by
      rw [← hL, hlen]
    rw [hnd, hml]
    have hmod : (dHi + 1 - dLo) * T.length % (dHi - dLo + 1) = 0 := by
      have h9 : dHi + 1 - dLo = dHi - dLo + 1 := by omega
      rw [h9, Nat.mul_mod_right]
    rw [if_pos hmod]
    have hdiv : (dHi + 1 - dLo) * T.length / (dHi - dLo + 1) = T.length := by
      have h9 : dHi + 1 - dLo = dHi - dLo + 1 := by omega
      rw [h9, Nat.mul_div_cancel_left _ (by omega)]
    rw [hdiv, hL]
  · rw [← (List.perm_insertionSort (· ≤ ·) slots).length_eq, hlen]
    have : dHi + 1 - dLo = dHi - dLo + 1 := by omega
    rw [this]

theorem create_date_ok {maxD ud sd ed sh eh : Nat} {σ : EventState}
    (h : create_date_event maxD ud sd ed sh eh = .ok σ) :
    ∃ T, timerange sh eh = some T ∧ sd ≤ ed ∧ sh < eh ∧ eh ≤ 24 ∧ ud ≤ sd ∧
      σ.kind = .specific ∧ σ.parts = [] ∧ σ.slots = slotGrid sd ed T ∧
      σ.avail = (fun _ _ => none) := by
  unfold create_date_event at h
  split at h
  · simp at h
  next hb =>
    split at h
    · simp at h
    next hv =>
      rw [not_ne_iff] at hv
      obtain ⟨h1, h2, h3, -⟩ := validate_date_ok hv
      split at h
      · simp at h
      next T hT =>
        rw [Except.ok.injEq] at h
        subst h
        exact ⟨T, hT, h2, h3, by omega, h1, rfl, rfl, rfl, rfl⟩

theorem create_week_ok {sw ew sh eh : Nat} {σ : EventState}
    (h : create_week_event sw ew sh eh = .ok σ) :
    ∃ T, timerange sh eh = some T ∧ sw ≤ ew ∧ sh < eh ∧ eh ≤ 24 ∧
      σ.kind = .generic ∧ σ.parts = [] ∧ σ.slots = slotGrid sw ew T ∧
      σ.avail = (fun _ _ => none) := by
  unfold create_week_event at h
  split at h
  · simp at h
  next hb =>
    split at h
    · simp at h
    next hv =>
      rw [not_ne_iff] at hv
      obtain ⟨h1, h2⟩ := validate_weekday_ok hv
      split at h
      · simp at h
      next T hT =>
        rw [Except.ok.injEq] at h
        subst h
        refine ⟨T, hT, h1, h2, by omega, rfl, rfl, ?_, rfl⟩
        exact slotGridW_eq_slotGrid sw ew T

theorem get_event_grid_nil {slots : List Slot} (hL : slots.insertionSort (· ≤ ·) = []) :
    get_event_grid slots = .error .emptyCrash := by
  unfold get_event_grid
  rw [hL]

theorem get_event_grid_ok_facts {slots L : List Slot} {n k : Nat}
    (h : get_event_grid slots = .ok (L, n, k)) :
    L = slots.insertionSort (· ≤ ·) ∧ L.length = n * k ∧ 0 < n := by
  rcases hLL : slots.insertionSort (· ≤ ·) with - | ⟨first, rest⟩
  · rw [get_event_grid_nil hLL] at h
    simp at h
  · rw [get_event_grid_cons hLL] at h
    split at h
    next hmod =>
      rw [Except.ok.injEq, Prod.mk.injEq, Prod.mk.injEq] at h
      obtain ⟨h1, h2, h3⟩ := h
      subst h1 h2 h3
      refine ⟨rfl, ?_, by omega⟩
      exact (Nat.mul_div_cancel' (Nat.dvd_of_mod_eq_zero hmod)).symm
    · simp at h
theorem flatMap_id_length {g : List (List Bool)} {k : Nat} (h : ∀ day ∈ g, day.length = k) :
    (g.flatMap id).length = g.length * k := by
  induction g with
  | nil => simp
  | cons a t ih =>
    have ha : a.length = k := h a (List.mem_cons_self _ _)
    have ht : (t.flatMap id).length = t.length * k :=
      ih (fun day hd => h day (List.mem_cons_of_mem _ hd))
    simp only [List.flatMap_cons, List.length_append, List.length_cons, id, ha, ht]
    ring

theorem lookup_zip_none {L : List Slot} {F : List Bool} {s : Slot} (hs : s ∉ L) :
    (L.zip F).lookup s = none := by
  induction L generalizing F with
  | nil => rfl
  | cons a t ih =>
    cases F with
    | nil => rfl
    | cons b fb =>
      have hne : s ≠ a := fun hEq => hs (hEq ▸ List.mem_cons_self _ _)
      have hst : s ∉ t := fun hmem => hs (List.mem_cons_of_mem _ hmem)
      simp only [List.zip_cons_cons, List.lookup]
      rw [beq_eq_false_iff_ne.2 hne]
      exact ih hst

theorem lookup_zip_get {L : List Slot} {F : List Bool} (hnd : L.Nodup) :
    ∀ {i : Nat} {s : Slot} {b : Bool}, L[i]? = some s → F[i]? = some b →
      (L.zip F).lookup s = some b := by
  induction L generalizing F with
  | nil =>
    intro i s b h1 h2
    simp at h1
  | cons a t ih =>
    intro i s b h1 h2
    cases F with
    | nil => simp at h2
    | cons fb F2 =>
      cases i with
      | zero =>
        simp only [List.getElem?_cons_zero, Option.some.injEq] at h1 h2
        subst h1 h2
        simp [List.zip_cons_cons, List.lookup]
      | succ i =>
        simp only [List.getElem?_cons_succ] at h1 h2
        have hsmem : s ∈ t := List.getElem?_mem h1
        have hne : s ≠ a := fun hEq => (List.nodup_cons.1 hnd).1 (hEq ▸ hsmem)
        simp only [List.zip_cons_cons, List.lookup]
        rw [beq_eq_false_iff_ne.2 hne]
        exact ih (List.nodup_cons.1 hnd).2 h1 h2
theorem lookup_zip_mem {L : List Slot} {F : List Bool} {s : Slot} {b : Bool}
    (h : (L.zip F).lookup s = some b) :
    ∃ i : Nat, L[i]? = some s ∧ F[i]? = some b := by
  induction L generalizing F with
  | nil => simp [List.lookup] at h
  | cons a t ih =>
    cases F with
    | nil => simp [List.lookup] at h
    | cons fb F2 =>
      simp only [List.zip_cons_cons, List.lookup] at h
      by_cases hsa : s = a
      · rw [beq_iff_eq.mpr hsa] at h
        have h2 : some fb = some b := h
        rw [Option.some.injEq] at h2
        exact ⟨0, by simp [hsa], by simp [h2]⟩
      · rw [beq_eq_false_iff_ne.2 hsa] at h
        rcases ih h with ⟨i, h1, h2⟩
        exact ⟨i + 1, by simpa using h1, by simpa using h2⟩

theorem add_availability_ok {σ σ2 : EventState} {p : PID} {name tz : String}
    {g : List (List Bool)} {dbOk isNew : Bool}
    (h : add_availability σ p name tz g dbOk = (.ok isNew, σ2)) :
    check_name_available σ p name ∧
    ∃ L nd k, get_event_grid σ.slots = .ok (L, nd, k) ∧
      g.length = nd ∧ (∀ day ∈ g, day.length = k) ∧
      L.length ≤ (g.flatMap id).length ∧
      isNew = decide (p ∉ σ.parts) ∧
      σ2 = { σ with
              parts := if p ∈ σ.parts then σ.parts else p :: σ.parts
              pname := fun q => if q = p then name else σ.pname q
              ptz := fun q => if q = p then tz else σ.ptz q
              avail := fun q s =>
                if q = p then (L.zip (g.flatMap id)).lookup s else σ.avail q s } := by
  unfold add_availability at h
  split at h
  · simp at h
  next hname =>
  rw [not_not] at hname
  split at h
  next e heq => simp at h
  next L nd k heq =>
  split at h
  · simp at h
  next hdays =>
  split at h
  · simp at h
  next htimes =>
  split at h
  · simp at h
  next hdb =>
  split at h
  · simp at h
  next hlen =>
  rw [Prod.mk.injEq, Except.ok.injEq] at h
  push_neg at htimes hlen
  exact ⟨hname, L, nd, k, heq, by omega, fun day hd => htimes day hd, hlen,
    h.1.symm, h.2.symm⟩

theorem add_availability_error {σ σ2 : EventState} {p : PID} {name tz : String}
    {g : List (List Bool)} {dbOk : Bool} {e : SubmitErr}
    (h : add_availability σ p name tz g dbOk = (.error e, σ2)) : σ2 = σ := by
  unfold add_availability at h
  split at h
  · rw [Prod.mk.injEq] at h
    exact h.2.symm
  next hname =>
  split at h
  next e2 heq =>
    rw [Prod.mk.injEq] at h
    exact h.2.symm
  next L nd k heq =>
  split at h
  · rw [Prod.mk.injEq] at h
    exact h.2.symm
  next hdays =>
  split at h
  · rw [Prod.mk.injEq] at h
    exact h.2.symm
  next htimes =>
  split at h
  · rw [Prod.mk.injEq] at h
    exact h.2.symm
  next hdb =>
  split at h
  · rw [Prod.mk.injEq] at h
    exact h.2.symm
  next hlen =>
  rw [Prod.mk.injEq] at h
  exact absurd h.1 (by simp)

theorem edit_date_ok {σ σ2 : EventState} {maxD ud sd ed sh eh : Nat} {dbOk : Bool}
    (h : edit_date_event σ maxD ud sd ed sh eh dbOk = (.ok (), σ2)) :
    σ.kind = .specific ∧ sd ≤ ed ∧ sh < eh ∧ eh ≤ 24 ∧
    ∃ T, timerange sh eh = some T ∧
      σ2 = { σ with
              slots := σ.slots.filter
                  (fun s => s ∉ σ.slots.filter (fun t => t ∉ slotGrid sd ed T))
                ++ (slotGrid sd ed T).filter (fun s => s ∉ σ.slots)
              avail := fun q s =>
                if s ∈ σ.slots.filter (fun t => t ∉ slotGrid sd ed T) then none
                else if q ∈ σ.parts ∧ s ∈ (slotGrid sd ed T).filter (fun t => t ∉ σ.slots) then
                  some false
                else σ.avail q s } := by
  unfold edit_date_event at h
  split at h
  · simp at h
  next hb =>
  split at h
  · simp at h
  next hkind =>
  rw [not_ne_iff] at hkind
  split at h
  · simp at h
  next firstSlot hhead =>
  set early := (if slotDay firstSlot > ud then slotDay firstSlot else ud) with hE
  split at h
  · simp at h
  next hval =>
  rw [not_ne_iff] at hval
  obtain ⟨-, h2, h3, -⟩ := validate_date_ok hval
  split at h
  · simp at h
  next T hT =>
  split at h
  · simp at h
  next hdb =>
  rw [Prod.mk.injEq] at h
  exact ⟨hkind, h2, h3, by omega, T, hT, h.2.symm⟩

theorem edit_date_error {σ σ2 : EventState} {maxD ud sd ed sh eh : Nat} {dbOk : Bool}
    {e : EditErr} (h : edit_date_event σ maxD ud sd ed sh eh dbOk = (.error e, σ2)) :
    σ2 = σ := by
  unfold edit_date_event at h
  split at h
  · rw [Prod.mk.injEq] at h
    exact h.2.symm
  next hb =>
  split at h
  · rw [Prod.mk.injEq] at h
    exact h.2.symm
  next hkind =>
  split at h
  · rw [Prod.mk.injEq] at h
    exact h.2.symm
  next firstSlot hhead =>
  set early := (if slotDay firstSlot > ud then slotDay firstSlot else ud) with hE
  split at h
  · rw [Prod.mk.injEq] at h
    exact h.2.symm
  next hval =>
  split at h
  · rw [Prod.mk.injEq] at h
    exact h.2.symm
  next T hT =>
  split at h
  · rw [Prod.mk.injEq] at h
    exact h.2.symm
  next hdb =>
  rw [Prod.mk.injEq] at h
  exact absurd h.1 (by simp)

theorem edit_week_ok {σ σ2 : EventState} {sw ew sh eh : Nat} {dbOk : Bool}
    (h : edit_week_event σ sw ew sh eh dbOk = (.ok (), σ2)) :
    σ.kind = .generic ∧ sw ≤ ew ∧ sh < eh ∧ eh ≤ 24 ∧
    ∃ T, timerange sh eh = some T ∧
      σ2 = { σ with
              slots := σ.slots.filter
                  (fun s => s ∉ σ.slots.filter (fun t => t ∉ slotGridW sw ew T))
                ++ (slotGridW sw ew T).filter (fun s => s ∉ σ.slots)
              avail := fun q s =>
                if s ∈ σ.slots.filter (fun t => t ∉ slotGridW sw ew T) then none
                else if q ∈ σ.parts ∧ s ∈ (slotGridW sw ew T).filter (fun t => t ∉ σ.slots) then
                  some false
                else σ.avail q s } := by
  unfold edit_week_event at h
  split at h
  · simp at h
  next hb =>
  split at h
  · simp at h
  next hkind =>
  rw [not_ne_iff] at hkind
  split at h
  · simp at h
  next hval =>
  rw [not_ne_iff] at hval
  obtain ⟨h1, h2⟩ := validate_weekday_ok hval
  split at h
  · simp at h
  next T hT =>
  split at h
  · simp at h
  next hdb =>
  rw [Prod.mk.injEq] at h
  exact ⟨hkind, h1, h2, by omega, T, hT, h.2.symm⟩

theorem edit_week_error {σ σ2 : EventState} {sw ew sh eh : Nat} {dbOk : Bool}
    {e : EditErr} (h : edit_week_event σ sw ew sh eh dbOk = (.error e, σ2)) :
    σ2 = σ := by
  unfold edit_week_event at h
  split at h
  · rw [Prod.mk.injEq] at h
    exact h.2.symm
  next hb =>
  split at h
  · rw [Prod.mk.injEq] at h
    exact h.2.symm
  next hkind =>
  split at h
  · rw [Prod.mk.injEq] at h
    exact h.2.symm
  next hval =>
  split at h
  · rw [Prod.mk.injEq] at h
    exact h.2.symm
  next T hT =>
  split at h
  · rw [Prod.mk.injEq] at h
    exact h.2.symm
  next hdb =>
  rw [Prod.mk.injEq] at h
  exact absurd h.1 (by simp)

theorem timerange_props {sh eh : Nat} {T : List Nat} (h1 : sh < eh) (h2 : eh ≤ 24)
    (hT : timerange sh eh = some T) :
    T ≠ [] ∧ T.Sorted (· < ·) ∧ (∀ m ∈ T, m < 1440) ∧ T.head? = some (sh * 60) ∧
      (∀ m ∈ T, ∃ k, m = sh * 60 + 15 * k ∧ m < eh * 60) := by
  obtain ⟨T2, hT2, a, b, c, d, e⟩ := timerange_some h1 h2
  rw [hT, Option.some.injEq] at hT2
  subst hT2
  exact ⟨a, b, c, d, e⟩

theorem IsRect_nodup {A : List Slot} (h : IsRect A) : A.Nodup := by
  rcases h with ⟨dLo, dHi, T, hd, hne, hs, hb, hperm⟩
  exact hperm.nodup_iff.2 (slotGrid_nodup hs.nodup hb)

theorem filter_diff_perm {A B : List Slot} (hA : A.Nodup) (hB : B.Nodup) :
    (A.filter (fun s => s ∉ A.filter (fun t => t ∉ B)) ++ B.filter (fun s => s ∉ A)).Perm B := by
  have hnd1 : (A.filter (fun s => s ∉ A.filter (fun t => t ∉ B))).Nodup := hA.filter _
  have hnd2 : (B.filter (fun s => s ∉ A)).Nodup := hB.filter _
  have hdisj : List.Disjoint (A.filter (fun s => s ∉ A.filter (fun t => t ∉ B)))
      (B.filter (fun s => s ∉ A)) := by
    intro x hx1 hx2
    rw [List.mem_filter, decide_eq_true_eq] at hx1 hx2
    exact hx2.2 hx1.1
  refine (List.perm_ext_iff_of_nodup (hnd1.append hnd2 hdisj) hB).2 ?_
  intro x
  simp only [List.mem_append, List.mem_filter, decide_eq_true_eq]
  constructor
  · rintro (⟨hxA, hnd⟩ | ⟨hxB, -⟩)
    · by_contra hxB
      exact hnd ⟨hxA, hxB⟩
    · exact hxB
  · intro hxB
    by_cases hxA : x ∈ A
    · exact Or.inl ⟨hxA, fun hmem => hmem.2 hxB⟩
    · exact Or.inr ⟨hxB, hxA⟩

theorem reachable_inv {σ : EventState} (h : Reachable σ) : IsRect σ.slots ∧ NamesDistinct σ := by
  induction h with
  | create_date h =>
    obtain ⟨T, hT, h2, h3, h4, -, hkind, hparts, hslots, -⟩ := create_date_ok h
    obtain ⟨hne, hsort, hbound, -, -⟩ := timerange_props h3 h4 hT
    constructor
    · exact ⟨_, _, T, h2, hne, hsort, hbound, by rw [hslots]⟩
    · intro a ha
      rw [hparts] at ha
      exact absurd ha (List.not_mem_nil _)
  | create_week h =>
    obtain ⟨T, hT, h2, h3, h4, hkind, hparts, hslots, -⟩ := create_week_ok h
    obtain ⟨hne, hsort, hbound, -, -⟩ := timerange_props h3 h4 hT
    constructor
    · exact ⟨_, _, T, h2, hne, hsort, hbound, by rw [hslots]⟩
    · intro a ha
      rw [hparts] at ha
      exact absurd ha (List.not_mem_nil _)
  | @submit σ p name tz g dbOk hσ ih =>
    rcases hres : add_availability σ p name tz g dbOk with ⟨r, σ2⟩
    cases r with
    | error e =>
      rw [add_availability_error hres]
      exact ih
    | ok b =>
      obtain ⟨hname, L, nd, k, heq, -, -, -, -, hσ2⟩ := add_availability_ok hres
      rw [hσ2]
      refine ⟨ih.1, ?_⟩
      intro a ha b2 hb2 hab
      have hmem : ∀ c, c ≠ p → c ∈ (if p ∈ σ.parts then σ.parts else p :: σ.parts) →
          c ∈ σ.parts := by
        intro c hcp hc
        by_cases hpm : p ∈ σ.parts
        · rw [if_pos hpm] at hc
          exact hc
        · rw [if_neg hpm] at hc
          rcases List.mem_cons.1 hc with hEq | hm
          · exact absurd hEq hcp
          · exact hm
      show (if a = p then name else σ.pname a) ≠ (if b2 = p then name else σ.pname b2)
      by_cases hap : a = p
      · rw [if_pos hap]
        have hbp : b2 ≠ p := fun hEq => hab (hap.trans hEq.symm)
        rw [if_neg hbp]
        intro hEq
        exact hname ⟨b2, hmem b2 hbp hb2, hbp, hEq.symm⟩
      · rw [if_neg hap]
        by_cases hbp : b2 = p
        · rw [if_pos hbp]
          intro hEq
          exact hname ⟨a, hmem a hap ha, hap, hEq⟩
        · rw [if_neg hbp]
          exact ih.2 a (hmem a hap ha) b2 (hmem b2 hbp hb2) hab
  | @edit_date σ maxD ud sd ed sh eh dbOk hσ ih =>
    rcases hres : edit_date_event σ maxD ud sd ed sh eh dbOk with ⟨r, σ2⟩
    cases r with
    | error e =>
      rw [edit_date_error hres]
      exact ih
    | ok u =>
      cases u
      obtain ⟨hkind, h2, h3, h4, T, hT, hσ2⟩ := edit_date_ok hres
      obtain ⟨hne, hsort, hbound, -, -⟩ := timerange_props h3 h4 hT
      rw [hσ2]
      refine ⟨?_, ih.2⟩
      have hBnd : (slotGrid sd ed T).Nodup := slotGrid_nodup hsort.nodup hbound
      exact ⟨sd, ed, T, h2, hne, hsort, hbound,
        filter_diff_perm (IsRect_nodup ih.1) hBnd⟩
  | @edit_week σ sw ew sh eh dbOk hσ ih =>
    rcases hres : edit_week_event σ sw ew sh eh dbOk with ⟨r, σ2⟩
    cases r with
    | error e =>
      rw [edit_week_error hres]
      exact ih
    | ok u =>
      cases u
      obtain ⟨hkind, h2, h3, h4, T, hT, hσ2⟩ := edit_week_ok hres
      obtain ⟨hne, hsort, hbound, -, -⟩ := timerange_props h3 h4 hT
      rw [hσ2]
      refine ⟨?_, ih.2⟩
      have hBnd : (slotGridW sw ew T).Nodup := by
        rw [slotGridW_eq_slotGrid]
        exact slotGrid_nodup hsort.nodup hbound
      refine ⟨sw, ew, T, h2, hne, hsort, hbound, ?_⟩
      have := filter_diff_perm (A := σ.slots) (B := slotGridW sw ew T)
        (IsRect_nodup ih.1) hBnd
      rw [slotGridW_eq_slotGrid] at this ⊢
      exact this
  | @remove_self σ p hσ ih =>
    unfold remove_self_availability
    split
    · refine ⟨ih.1, ?_⟩
      intro a ha b hb hab
      rw [List.mem_filter] at ha hb
      exact ih.2 a ha.1 b hb.1 hab
    · exact ih
  | @remove_other σ name hσ ih =>
    unfold remove_availability
    split
    · refine ⟨ih.1, ?_⟩
      intro a ha b hb hab
      rw [List.mem_filter] at ha hb
      exact ih.2 a ha.1 b hb.1 hab
    · exact ih

theorem timerangeAux_eq_range {c e n : Nat} (hn : ∀ k, k < n ↔ c + 15 * k < e) :
    timerangeAux c e = (List.range n).map (fun k => c + 15 * k) := by
  have hs1 : (timerangeAux c e).Sorted (· ≤ ·) :=
    (timerangeAux_sorted c e).imp (fun h => Nat.le_of_lt h)
  have hs2 : ((List.range n).map (fun k => c + 15 * k)).Sorted (· ≤ ·) := by
    rw [List.Sorted, List.pairwise_map]
    exact (List.pairwise_lt_range n).imp (fun h => by omega)
  refine List.eq_of_perm_of_sorted ?_ hs1 hs2
  refine (List.perm_ext_iff_of_nodup (timerangeAux_sorted c e).nodup
    ((List.nodup_range n).map (fun a b hEq => by omega))).2 ?_
  intro x
  rw [timerangeAux_mem]
  simp only [List.mem_map, List.mem_range]
  constructor
  · rintro ⟨k, rfl, hk⟩
    exact ⟨k, (hn k).2 hk, rfl⟩
  · rintro ⟨k, hk, rfl⟩
    exact ⟨k, rfl, (hn k).1 hk⟩

/-- C5: for `0 ≤ startHour < endHour ≤ 24`, `timerange` yields exactly
`startHour:00, startHour:15, ...` in fixed 15-minute steps up to but excluding
`endHour:00`, the last yielded time being `(endHour-1):45` (23:45 for
`endHour = 24`); for `startHour = endHour ≤ 23` it yields the empty sequence,
while `timerange(24, 24)` raises `ValueError` (from `time(24)`) instead of
yielding anything.  Times are minutes of the day. -/
theorem timerange_semantics :
    (∀ s e : Nat, s < e → e ≤ 24 →
      ∃ l, timerange s e = some l ∧
        l = (List.range (4 * (e - s))).map (fun k => s * 60 + 15 * k) ∧
        l.head? = some (s * 60) ∧ l.getLast? = some ((e - 1) * 60 + 45) ∧
        ∀ x ∈ l, x < e * 60) ∧
    (∀ s : Nat, s ≤ 23 → timerange s s = some []) ∧
    timerange 24 24 = none := by
  refine ⟨?_, ?_, ?_⟩
  · intro s e h1 h2
    have hsh : ¬ 24 ≤ s := by omega
    have heh : ¬ 24 < e := by omega
    have hEq : timerangeAux (s * 60) (if e = 24 then 23 * 60 + 59 else e * 60)
        = (List.range (4 * (e - s))).map (fun k => s * 60 + 15 * k) := by
      apply timerangeAux_eq_range
      intro k
      by_cases h24 : e = 24
      · subst h24
        rw [if_pos rfl]
        omega
      · rw [if_neg h24]
        omega
    refine ⟨_, by rw [timerange, if_neg hsh, if_neg heh], hEq, ?_, ?_, ?_⟩
    · rw [hEq, List.head?_eq_getElem?, List.getElem?_map, List.getElem?_range (by omega)]
      simp
    · rw [hEq, List.getLast?_eq_getElem?]
      have hlen : (((List.range (4 * (e - s)))).map (fun k => s * 60 + 15 * k)).length
          = 4 * (e - s) := by simp
      rw [hlen, List.getElem?_map, List.getElem?_range (by omega)]
      simp only [Option.map_some']
      rw [Option.some.injEq]
      omega
    · intro x hx
      rw [hEq] at hx
      simp only [List.mem_map, List.mem_range] at hx
      obtain ⟨k, hk, rfl⟩ := hx
      omega
  · intro s hs
    have hsh : ¬ 24 ≤ s := by omega
    have heh : ¬ 24 < s := by omega
    have h24 : ¬ s = 24 := by omega
    rw [timerange, if_neg hsh, if_neg heh, if_neg h24]
    rw [timerangeAux, if_neg (by omega : ¬ s * 60 < s * 60)]
  · rw [timerange, if_pos (by omega : 24 ≤ 24)]

/-- C5 counterexample: the claim as stated says `timerange` yields the empty
sequence whenever `startHour = endHour`, but at `startHour = endHour = 24`
the construction of the start time (`time(24)`) raises `ValueError`. -/
theorem timerange_claim_counterexample : ¬ (timerange 24 24 = some []) := by
  rw [timerange, if_pos (by omega : 24 ≤ 24)]
  simp

/-- Witness for C5 at `startHour = 1`, `endHour = 2`. -/
theorem timerange_semantics_witness :
    ∃ l, timerange 1 2 = some l ∧
      l = (List.range (4 * (2 - 1))).map (fun k => 1 * 60 + 15 * k) ∧
      l.head? = some (1 * 60) ∧ l.getLast? = some ((2 - 1) * 60 + 45) ∧
      ∀ x ∈ l, x < 2 * 60 :=
  timerange_semantics.1 1 2 (by decide) (by decide)

/-- C4 (code bug): the date-edit earliest-start rule.  The docstring-level
rule — and the comment right above the code — says: a start date already in
the past may stay at its current value (but not move earlier), and a
today-or-future start date may be moved back to today (but not earlier).  The
code computes `earliest_date` as the *maximum* of the existing start date and
today instead of the minimum, so it rejects both allowed inputs: editing
`pastDateEvent` (existing start day 5, today day 10) while keeping the start
at day 5 is rejected, and editing `futureDateEvent` (existing start day 20,
today day 10) moving the start to today (day 10) is rejected. -/
theorem date_edit_earliest_rule_bug :
    (edit_date_event pastDateEvent 30 10 5 5 9 10 true).1 = .error .validation ∧
    (edit_date_event futureDateEvent 30 10 10 20 9 10 true).1 = .error .validation := by
  constructor
  · decide
  · decide

/-- C1: on every state reachable through the creation path followed by any
sequence of submissions, edits and removals, `get_event_grid` succeeds (it
never raises `EventGridDimensionError`, nor crashes), and the timeslot count
is the exact product of the day span and the per-day slot count. -/
theorem grid_rectangularity_invariant (σ : EventState) (h : Reachable σ) :
    ∃ L n k, get_event_grid σ.slots = Except.ok (L, n, k) ∧ σ.slots.length = n * k := by
  obtain ⟨n, k, hok, hlen, -⟩ := get_event_grid_rect (reachable_inv h).1
  exact ⟨_, n, k, hok, hlen⟩

/-- Witness for C1: an event freshly created by `create_date_event`
(days 100-101, hours 9-10). -/
theorem grid_rectangularity_invariant_witness :
    ∃ σ L n k, create_date_event 30 100 100 101 9 10 = Except.ok σ ∧
      get_event_grid σ.slots = Except.ok (L, n, k) ∧ σ.slots.length = n * k := by
  have hc : ∃ σ, create_date_event 30 100 100 101 9 10 = Except.ok σ := ⟨_, rfl⟩
  obtain ⟨σ0, hσ0⟩ := hc
  obtain ⟨L, n, k, h1, h2⟩ := grid_rectangularity_invariant σ0 (Reachable.create_date hσ0)
  exact ⟨σ0, L, n, k, hσ0, h1, h2⟩

/-- C8: the aggregate view of an event with zero participants is an empty
participant list and a `numDays × numSlots` grid of empty name lists. -/
theorem zero_participant_aggregation_shape (σ : EventState) (L : List Slot) (n k : Nat)
    (hp : σ.parts = []) (hg : get_event_grid σ.slots = .ok (L, n, k)) :
    ∃ grid, get_all_availability_no_participants σ = some ([], grid) ∧
      grid.length = n ∧ ∀ row ∈ grid, row.length = k ∧ ∀ cell ∈ row, cell = [] := by
  unfold get_all_availability_no_participants
  rw [if_pos hp, hg]
  refine ⟨_, rfl, by simp, ?_⟩
  intro row hrow
  rw [List.eq_of_mem_replicate hrow]
  refine ⟨by simp, ?_⟩
  intro cell hcell
  exact List.eq_of_mem_replicate hcell

/-- Witness for C8 on the participant-free event `pastDateEvent`
(1 day x 4 slots). -/
theorem zero_participant_aggregation_shape_witness :
    ∃ grid, get_all_availability_no_participants pastDateEvent = some ([], grid) ∧
      grid.length = 1 ∧ ∀ row ∈ grid, row.length = 4 ∧ ∀ cell ∈ row, cell = [] :=
  zero_participant_aggregation_shape pastDateEvent
    (pastDateEvent.slots.insertionSort (· ≤ ·)) 1 4 rfl (by decide)

/-- C9: whenever an availability submission or a grid edit returns an error —
a validation failure (the in-transaction 400 returns happen before any
write), a shape mismatch, a grid-dimension fault, or an injected storage
failure — the committed state equals the state before the operation. -/
theorem mutation_atomicity_on_error :
    (∀ σ σ2 p name tz g dbOk e,
      add_availability σ p name tz g dbOk = (.error e, σ2) → σ2 = σ) ∧
    (∀ σ σ2 maxD ud sd ed sh eh dbOk e,
      edit_date_event σ maxD ud sd ed sh eh dbOk = (.error e, σ2) → σ2 = σ) ∧
    (∀ σ σ2 sw ew sh eh dbOk e,
      edit_week_event σ sw ew sh eh dbOk = (.error e, σ2) → σ2 = σ) :=
  ⟨fun _ _ _ _ _ _ _ _ h => add_availability_error h,
   fun _ _ _ _ _ _ _ _ _ _ h => edit_date_error h,
   fun _ _ _ _ _ _ _ _ h => edit_week_error h⟩

/-- Witness for C9: a submission with a wrong-shaped grid fails and leaves
`pastDateEvent` unchanged. -/
theorem mutation_atomicity_on_error_witness :
    ∃ σ2, add_availability pastDateEvent 1 "Alice" "UTC" [] true = (.error .shapeDays, σ2) ∧
      σ2 = pastDateEvent := by
  refine ⟨(add_availability pastDateEvent 1 "Alice" "UTC" [] true).2, rfl, ?_⟩
  exact mutation_atomicity_on_error.1 pastDateEvent _ 1 "Alice" "UTC" [] true .shapeDays rfl

/-- C10 (implicit behaviour): on a GENERIC_WEEKDAYS event, a participant with
no `is_available = True` rows gets the generic 500 from `get_self_availability`
(the debug `print` indexes `availabilities[0]` on an empty queryset), while on
a SPECIFIC_DATES event the same situation returns the empty list normally. -/
theorem week_self_availability_empty_crash :
    (∀ σ p, σ.kind = .generic → p ∈ σ.parts →
      (σ.slots.insertionSort (· ≤ ·)).filter (fun s => σ.avail p s = some true) = [] →
      get_self_availability σ p = .error .generic) ∧
    (∀ σ p, σ.kind = .specific → p ∈ σ.parts →
      (σ.slots.insertionSort (· ≤ ·)).filter (fun s => σ.avail p s = some true) = [] →
      get_self_availability σ p = .ok []) := by
  constructor
  · intro σ p hk hp hfilter
    unfold get_self_availability
    rw [if_neg (not_not.2 hp), hk, hfilter]
    rfl
  · intro σ p hk hp hfilter
    unfold get_self_availability
    rw [if_neg (not_not.2 hp), hk, hfilter]

/-- Witness for C10: `weekNoTrue` (all-false generic event) errors while
`dateNoTrue` (all-false date event) returns the empty list. -/
theorem week_self_availability_empty_crash_witness :
    get_self_availability weekNoTrue 1 = .error .generic ∧
    get_self_availability dateNoTrue 1 = .ok [] :=
  ⟨week_self_availability_empty_crash.1 weekNoTrue 1 rfl (by decide) (by decide),
   week_self_availability_empty_crash.2 dateNoTrue 1 rfl (by decide) (by decide)⟩

theorem mem_upsert_parts {σ : EventState} {p c : PID} (hcp : c ≠ p)
    (hc : c ∈ (if p ∈ σ.parts then σ.parts else p :: σ.parts)) : c ∈ σ.parts := by
  by_cases hpm : p ∈ σ.parts
  · rw [if_pos hpm] at hc
    exact hc
  · rw [if_neg hpm] at hc
    rcases List.mem_cons.1 hc with hEq | hm
    · exact absurd hEq hcp
    · exact hm

/-- C7: display-name exclusivity.  (1) On every reachable state no two
participant rows of the event hold the same display name; (2) a submission by
actor `p` under a name currently held by a different actor's participant
returns the name-taken error and commits the unchanged state; (3) after a
successful resubmission by the same actor `p` under a new name, the old name
is available again to every actor. -/
theorem display_name_exclusivity :
    (∀ σ, Reachable σ → NamesDistinct σ) ∧
    (∀ σ p q name tz g dbOk, q ∈ σ.parts → q ≠ p → σ.pname q = name →
      add_availability σ p name tz g dbOk = (.error .nameTaken, σ)) ∧
    (∀ σ σ2 p newName tz g dbOk isNew q, NamesDistinct σ → p ∈ σ.parts →
      add_availability σ p newName tz g dbOk = (.ok isNew, σ2) → newName ≠ σ.pname p →
      check_name_available σ2 q (σ.pname p)) := by
  refine ⟨fun σ h => (reachable_inv h).2, ?_, ?_⟩
  · intro σ p q name tz g dbOk hq hqp hname
    have hc : ¬ check_name_available σ p name := fun hchk => hchk ⟨q, hq, hqp, hname⟩
    unfold add_availability
    rw [if_pos hc]
  · intro σ σ2 p newName tz g dbOk isNew q hdist hp h hne
    obtain ⟨-, L, nd, k, -, -, -, -, -, hσ2⟩ := add_availability_ok h
    intro hex
    obtain ⟨r, hr, hrq, hrname⟩ := hex
    rw [hσ2] at hr hrname
    by_cases hrp : r = p
    · subst hrp
      have hr2 : (if r = r then newName else σ.pname r) = σ.pname r := hrname
      rw [if_pos rfl] at hr2
      exact hne hr2
    · have hr2 : (if r = p then newName else σ.pname r) = σ.pname p := hrname
      rw [if_neg hrp] at hr2
      exact hdist r (mem_upsert_parts hrp hr) p hp hrp hr2

/-- Witness for C7 on `namedEvent` (actor 0 holds "Alice"): a submission by
actor 1 under "Alice" fails and changes nothing; actor 0 renames to "Bob",
after which "Alice" is available to (arbitrary) actor 7. -/
theorem display_name_exclusivity_witness :
    NamesDistinct namedEvent ∧
    add_availability namedEvent 1 "Alice" "UTC" [[true, true, true, true]] true
      = (.error .nameTaken, namedEvent) ∧
    ∃ σ2, add_availability namedEvent 0 "Bob" "UTC" [[true, true, true, true]] true
      = (.ok false, σ2) ∧ check_name_available σ2 7 "Alice" := by
  have hdist : NamesDistinct namedEvent := by
    intro a ha b hb hab
    have ha2 : a ∈ [0] := ha
    have hb2 : b ∈ [0] := hb
    rw [List.mem_singleton] at ha2 hb2
    exact absurd (ha2.trans hb2.symm) hab
  refine ⟨hdist, ?_, ?_⟩
  · exact display_name_exclusivity.2.1 namedEvent 1 0 "Alice" "UTC"
      [[true, true, true, true]] true (by decide) (by decide) rfl
  · have h : add_availability namedEvent 0 "Bob" "UTC" [[true, true, true, true]] true
        = (.ok false, (add_availability namedEvent 0 "Bob" "UTC"
            [[true, true, true, true]] true).2) := by rfl
    refine ⟨_, h, ?_⟩
    exact display_name_exclusivity.2.2 namedEvent _ 0 "Bob" "UTC"
      [[true, true, true, true]] true false 7 hdist (by decide) h (by decide)

/-- C2: after a successful availability submission the participant's stored
rows are exactly one per event timeslot — the row for the `i`-th timeslot in
day-major/time-ascending order holds the `i`-th value of the day-major
flattening of the submitted grid — and no row of the participant survives
from before the submission (full replace).  `σ.slots.Nodup` is the
`unique_date_timeslot_per_event` / `unique_weekday_timeslot_per_event`
database constraint. -/
theorem reconciler_write_postcondition (σ σ2 : EventState) (p : PID) (name tz : String)
    (g : List (List Bool)) (dbOk isNew : Bool) (hnd : σ.slots.Nodup)
    (h : add_availability σ p name tz g dbOk = (.ok isNew, σ2)) :
    σ2.slots = σ.slots ∧
    (σ.slots.insertionSort (· ≤ ·)).length = (g.flatMap id).length ∧
    (∀ (i : Nat) (s : Slot) (b : Bool), (σ.slots.insertionSort (· ≤ ·))[i]? = some s →
      (g.flatMap id)[i]? = some b → σ2.avail p s = some b) ∧
    (∀ s, s ∉ σ.slots → σ2.avail p s = none) ∧
    (∀ s ∈ σ.slots, (σ2.avail p s).isSome) := by
  obtain ⟨-, L, nd, k, heq, hdays, htimes, -, -, hσ2⟩ := add_availability_ok h
  obtain ⟨hLdef, hLlen, -⟩ := get_event_grid_ok_facts heq
  subst hLdef
  have hLnd : (σ.slots.insertionSort (· ≤ ·)).Nodup :=
    (List.perm_insertionSort (· ≤ ·) σ.slots).nodup_iff.2 hnd
  have hlen : (σ.slots.insertionSort (· ≤ ·)).length = (g.flatMap id).length := by
    rw [hLlen, flatMap_id_length htimes, hdays]
  have havail : ∀ s, σ2.avail p s
      = ((σ.slots.insertionSort (· ≤ ·)).zip (g.flatMap id)).lookup s := by
    intro s
    rw [hσ2]
    show (if p = p then ((σ.slots.insertionSort (· ≤ ·)).zip (g.flatMap id)).lookup s
      else σ.avail p s) = _
    rw [if_pos rfl]
  refine ⟨by rw [hσ2], hlen, ?_, ?_, ?_⟩
  · intro i s b h1 h2
    rw [havail s]
    exact lookup_zip_get hLnd h1 h2
  · intro s hs
    rw [havail s]
    exact lookup_zip_none (fun hmem => hs ((List.mem_insertionSort _).1 hmem))
  · intro s hs
    have hsL : s ∈ σ.slots.insertionSort (· ≤ ·) := (List.mem_insertionSort _).2 hs
    obtain ⟨i, hiLt, hi⟩ := List.getElem_of_mem hsL
    have hi2 : (σ.slots.insertionSort (· ≤ ·))[i]? = some s := by
      rw [List.getElem?_eq_getElem hiLt, hi]
    have hib : i < (g.flatMap id).length := by
      rw [← hlen]
      exact hiLt
    obtain ⟨b, hb⟩ : ∃ b, (g.flatMap id)[i]? = some b := by
      rw [List.getElem?_eq_getElem hib]
      exact ⟨_, rfl⟩
    rw [havail s, lookup_zip_get hLnd hi2 hb]
    rfl

/-- Witness for C2: submitting `[[true, false, true, false]]` to the 1-day,
4-slot event `pastDateEvent`. -/
theorem reconciler_write_postcondition_witness :
    ∃ σ2, add_availability pastDateEvent 1 "Alice" "UTC" [[true, false, true, false]] true
        = (.ok true, σ2) ∧
      σ2.slots = pastDateEvent.slots ∧
      (pastDateEvent.slots.insertionSort (· ≤ ·)).length
        = ([[true, false, true, false]].flatMap id).length ∧
      (∀ (i : Nat) (s : Slot) (b : Bool),
        (pastDateEvent.slots.insertionSort (· ≤ ·))[i]? = some s →
        ([[true, false, true, false]].flatMap id)[i]? = some b → σ2.avail 1 s = some b) ∧
      (∀ s, s ∉ pastDateEvent.slots → σ2.avail 1 s = none) ∧
      (∀ s ∈ pastDateEvent.slots, (σ2.avail 1 s).isSome) := by
  have h : add_availability pastDateEvent 1 "Alice" "UTC" [[true, false, true, false]] true
      = (.ok true, (add_availability pastDateEvent 1 "Alice" "UTC"
          [[true, false, true, false]] true).2) := by rfl
  obtain ⟨c1, c2, c3, c4, c5⟩ := reconciler_write_postcondition pastDateEvent _ 1 "Alice"
    "UTC" _ true true (by decide) h
  exact ⟨_, h, c1, c2, c3, c4, c5⟩

theorem edit_post_facts {σ σ2 : EventState} {B : List Slot} (hA : σ.slots.Nodup)
    (hBnd : B.Nodup)
    (hσ2 : σ2 = { σ with
        slots := σ.slots.filter (fun s => s ∉ σ.slots.filter (fun t => t ∉ B))
          ++ B.filter (fun s => s ∉ σ.slots)
        avail := fun q s =>
          if s ∈ σ.slots.filter (fun t => t ∉ B) then none
          else if q ∈ σ.parts ∧ s ∈ B.filter (fun t => t ∉ σ.slots) then some false
          else σ.avail q s }) :
    (∀ s : Slot, s ∈ σ2.slots ↔ s ∈ B) ∧ σ2.slots.Nodup ∧
    (∀ q s, s ∈ σ.slots → s ∈ B → σ2.avail q s = σ.avail q s) ∧
    (∀ q s, s ∈ σ.slots → s ∉ B → σ2.avail q s = none) ∧
    (∀ q ∈ σ.parts, ∀ s, s ∈ B → s ∉ σ.slots → σ2.avail q s = some false) := by
  subst hσ2
  have hperm := filter_diff_perm hA hBnd
  refine ⟨fun s => hperm.mem_iff, hperm.nodup_iff.2 hBnd, ?_, ?_, ?_⟩
  · intro q s hsA hsB
    have h1 : s ∉ σ.slots.filter (fun t => t ∉ B) := by
      intro hmem
      rw [List.mem_filter, decide_eq_true_eq] at hmem
      exact hmem.2 hsB
    have h2 : ¬ (q ∈ σ.parts ∧ s ∈ B.filter (fun t => t ∉ σ.slots)) := by
      rintro ⟨-, hmem⟩
      rw [List.mem_filter, decide_eq_true_eq] at hmem
      exact hmem.2 hsA
    show (if s ∈ σ.slots.filter (fun t => t ∉ B) then none
      else if q ∈ σ.parts ∧ s ∈ B.filter (fun t => t ∉ σ.slots) then some false
      else σ.avail q s) = σ.avail q s
    rw [if_neg h1, if_neg h2]
  · intro q s hsA hsB
    have h1 : s ∈ σ.slots.filter (fun t => t ∉ B) := by
      rw [List.mem_filter, decide_eq_true_eq]
      exact ⟨hsA, hsB⟩
    show (if s ∈ σ.slots.filter (fun t => t ∉ B) then none
      else if q ∈ σ.parts ∧ s ∈ B.filter (fun t => t ∉ σ.slots) then some false
      else σ.avail q s) = none
    rw [if_pos h1]
  · intro q hq s hsB hsA
    have h1 : s ∉ σ.slots.filter (fun t => t ∉ B) := by
      intro hmem
      rw [List.mem_filter, decide_eq_true_eq] at hmem
      exact hsA hmem.1
    have h2 : q ∈ σ.parts ∧ s ∈ B.filter (fun t => t ∉ σ.slots) := by
      refine ⟨hq, ?_⟩
      rw [List.mem_filter, decide_eq_true_eq]
      exact ⟨hsB, hsA⟩
    show (if s ∈ σ.slots.filter (fun t => t ∉ B) then none
      else if q ∈ σ.parts ∧ s ∈ B.filter (fun t => t ∉ σ.slots) then some false
      else σ.avail q s) = some false
    rw [if_neg h1, if_pos h2]

/-- C3: a successful grid edit turns the event's timeslot set from `A` into
exactly the requested set `B`; the availability rows of every participant on
`A ∩ B` are untouched, the rows on `A − B` are deleted (cascade of the
timeslot delete), and every participant existing at edit time gets an
`is_available = False` row on every slot of `B − A`.  For a date edit `B` is
`slotGrid startDate endDate T`, for a week edit `slotGridW startWeekday
endWeekday T`, with `T` the produced time range. -/
theorem grid_edit_diff_frame :
    (∀ σ σ2 maxD ud sd ed sh eh dbOk T, σ.slots.Nodup →
      edit_date_event σ maxD ud sd ed sh eh dbOk = (.ok (), σ2) →
      timerange sh eh = some T →
      ((∀ s : Slot, s ∈ σ2.slots ↔ s ∈ slotGrid sd ed T) ∧ σ2.slots.Nodup ∧
       (∀ q s, s ∈ σ.slots → s ∈ slotGrid sd ed T → σ2.avail q s = σ.avail q s) ∧
       (∀ q s, s ∈ σ.slots → s ∉ slotGrid sd ed T → σ2.avail q s = none) ∧
       (∀ q ∈ σ.parts, ∀ s, s ∈ slotGrid sd ed T → s ∉ σ.slots →
         σ2.avail q s = some false))) ∧
    (∀ σ σ2 sw ew sh eh dbOk T, σ.slots.Nodup →
      edit_week_event σ sw ew sh eh dbOk = (.ok (), σ2) →
      timerange sh eh = some T →
      ((∀ s : Slot, s ∈ σ2.slots ↔ s ∈ slotGridW sw ew T) ∧ σ2.slots.Nodup ∧
       (∀ q s, s ∈ σ.slots → s ∈ slotGridW sw ew T → σ2.avail q s = σ.avail q s) ∧
       (∀ q s, s ∈ σ.slots → s ∉ slotGridW sw ew T → σ2.avail q s = none) ∧
       (∀ q ∈ σ.parts, ∀ s, s ∈ slotGridW sw ew T → s ∉ σ.slots →
         σ2.avail q s = some false))) := by
  constructor
  · intro σ σ2 maxD ud sd ed sh eh dbOk T hnd h hT
    obtain ⟨-, -, h3, h4, T2, hT2, hσ2⟩ := edit_date_ok h
    rw [hT, Option.some.injEq] at hT2
    subst hT2
    obtain ⟨-, hsort, hbound, -, -⟩ := timerange_props h3 h4 hT
    exact edit_post_facts hnd (slotGrid_nodup hsort.nodup hbound) hσ2
  · intro σ σ2 sw ew sh eh dbOk T hnd h hT
    obtain ⟨-, -, h3, h4, T2, hT2, hσ2⟩ := edit_week_ok h
    rw [hT, Option.some.injEq] at hT2
    subst hT2
    obtain ⟨-, hsort, hbound, -, -⟩ := timerange_props h3 h4 hT
    have hBnd : (slotGridW sw ew T).Nodup := by
      rw [slotGridW_eq_slotGrid]
      exact slotGrid_nodup hsort.nodup hbound
    exact edit_post_facts hnd hBnd hσ2

/-- Witness for C3: editing `editBaseEvent` (day 20, one participant) to span
days 20-21. -/
theorem grid_edit_diff_frame_witness :
    ∃ σ2 T, edit_date_event editBaseEvent 30 10 20 21 9 10 true = (.ok (), σ2) ∧
      timerange 9 10 = some T ∧
      (∀ s : Slot, s ∈ σ2.slots ↔ s ∈ slotGrid 20 21 T) ∧ σ2.slots.Nodup ∧
      (∀ q s, s ∈ editBaseEvent.slots → s ∈ slotGrid 20 21 T →
        σ2.avail q s = editBaseEvent.avail q s) ∧
      (∀ q s, s ∈ editBaseEvent.slots → s ∉ slotGrid 20 21 T → σ2.avail q s = none) ∧
      (∀ q ∈ editBaseEvent.parts, ∀ s, s ∈ slotGrid 20 21 T → s ∉ editBaseEvent.slots →
        σ2.avail q s = some false) := by
  have h : edit_date_event editBaseEvent 30 10 20 21 9 10 true
      = (.ok (), (edit_date_event editBaseEvent 30 10 20 21 9 10 true).2) := by rfl
  obtain ⟨c1, c2, c3, c4, c5⟩ := grid_edit_diff_frame.1 editBaseEvent _ 30 10 20 21 9 10
    true _ (by decide) h rfl
  exact ⟨_, _, h, rfl, c1, c2, c3, c4, c5⟩

theorem insertionSort_sorted_lt {l : List Slot} (hnd : l.Nodup) :
    (l.insertionSort (· ≤ ·)).Sorted (· < ·) := by
  have hle : (l.insertionSort (· ≤ ·)).Sorted (· ≤ ·) := List.sorted_insertionSort _ _
  have hnd2 : (l.insertionSort (· ≤ ·)).Nodup :=
    (List.perm_insertionSort (· ≤ ·) l).nodup_iff.2 hnd
  exact (hle.and hnd2).imp (fun hab => Nat.lt_of_le_of_ne hab.1 hab.2)

/-- C6 counterexample: the claim as stated promises the round trip for every
boolean grid on both grid kinds, but on a GENERIC_WEEKDAYS event submitting
the all-false grid succeeds and the subsequent `get_self_availability`
returns the generic 500 (the debug `print` indexes an empty queryset) instead
of the empty list. -/
theorem submit_readback_counterexample :
    (add_availability weekEvent 1 "Alice" "UTC" [[false, false, false, false]] true).1
      = .ok true ∧
    get_self_availability
      (add_availability weekEvent 1 "Alice" "UTC" [[false, false, false, false]] true).2 1
      = .error .generic := by
  constructor
  · decide
  · decide

/-- C6 (amended): after a successful submission, reading back one's own
availability identifies exactly the timeslots whose submitted value was true,
in ascending timeslot order — unconditionally for a SPECIFIC_DATES event, and
for a GENERIC_WEEKDAYS event (whose values are reported through
`get_weekday_date`) provided at least one submitted value is true; a GENERIC
event with zero true values gets the generic server error instead. -/
theorem submit_readback_roundtrip (σ σ2 : EventState) (p : PID) (name tz : String)
    (g : List (List Bool)) (dbOk isNew : Bool) (hnd : σ.slots.Nodup)
    (h : add_availability σ p name tz g dbOk = (.ok isNew, σ2)) :
    (σ.kind = .specific → ∃ l, get_self_availability σ2 p = .ok l ∧ l.Sorted (· < ·) ∧
      (∀ s : Slot, s ∈ l ↔ ∃ i : Nat, (σ.slots.insertionSort (· ≤ ·))[i]? = some s ∧
        (g.flatMap id)[i]? = some true)) ∧
    (σ.kind = .generic →
      ((∃ i : Nat, (g.flatMap id)[i]? = some true) →
        ∃ l, get_self_availability σ2 p = .ok l ∧ l.Sorted (· < ·) ∧
          (∀ x, x ∈ l ↔ ∃ (i : Nat) (s : Slot),
            (σ.slots.insertionSort (· ≤ ·))[i]? = some s ∧ (g.flatMap id)[i]? = some true ∧
            x = get_weekday_date (slotDay s) (slotTime s))) ∧
      ((∀ i : Nat, (g.flatMap id)[i]? ≠ some true) →
        get_self_availability σ2 p = .error .generic)) := by
  obtain ⟨-, L, nd, k, heq, hdays, htimes, -, -, hσ2⟩ := add_availability_ok h
  obtain ⟨hLdef, hLlen, -⟩ := get_event_grid_ok_facts heq
  subst hLdef
  have hLnd : (σ.slots.insertionSort (· ≤ ·)).Nodup :=
    (List.perm_insertionSort (· ≤ ·) σ.slots).nodup_iff.2 hnd
  have hlen : (σ.slots.insertionSort (· ≤ ·)).length = (g.flatMap id).length := by
    rw [hLlen, flatMap_id_length htimes, hdays]
  have hkind2 : σ2.kind = σ.kind := by rw [hσ2]
  have hslots2 : σ2.slots = σ.slots := by rw [hσ2]
  have hparts2 : p ∈ σ2.parts := by
    rw [hσ2]
    show p ∈ (if p ∈ σ.parts then σ.parts else p :: σ.parts)
    by_cases hpm : p ∈ σ.parts
    · rw [if_pos hpm]
      exact hpm
    · rw [if_neg hpm]
      exact List.mem_cons_self _ _
  have havail : ∀ s, σ2.avail p s
      = ((σ.slots.insertionSort (· ≤ ·)).zip (g.flatMap id)).lookup s := by
    intro s
    rw [hσ2]
    show (if p = p then ((σ.slots.insertionSort (· ≤ ·)).zip (g.flatMap id)).lookup s
      else σ.avail p s) = _
    rw [if_pos rfl]
  have hmem_avs : ∀ s : Slot,
      (s ∈ (σ2.slots.insertionSort (· ≤ ·)).filter (fun s => σ2.avail p s = some true)) ↔
      (∃ i : Nat, (σ.slots.insertionSort (· ≤ ·))[i]? = some s ∧
        (g.flatMap id)[i]? = some true) := by
    intro s
    rw [hslots2, List.mem_filter, decide_eq_true_eq, havail s]
    constructor
    · rintro ⟨-, hlk⟩
      exact lookup_zip_mem hlk
    · rintro ⟨i, h1, h2⟩
      exact ⟨List.getElem?_mem h1, lookup_zip_get hLnd h1 h2⟩
  have hsorted_avs : ((σ2.slots.insertionSort (· ≤ ·)).filter
      (fun s => σ2.avail p s = some true)).Sorted (· < ·) := by
    rw [hslots2]
    exact (insertionSort_sorted_lt hnd).filter _
  constructor
  · intro hk
    have hk2 : σ2.kind = EventKind.specific := by rw [hkind2, hk]
    have hself : get_self_availability σ2 p
        = .ok ((σ2.slots.insertionSort (· ≤ ·)).filter
            (fun s => σ2.avail p s = some true)) := by
      unfold get_self_availability
      rw [if_neg (not_not.2 hparts2), hk2]
    exact ⟨_, hself, hsorted_avs, hmem_avs⟩
  · intro hk
    have hk2 : σ2.kind = EventKind.generic := by rw [hkind2, hk]
    have hself : get_self_availability σ2 p
        = (if ((σ2.slots.insertionSort (· ≤ ·)).filter
              (fun s => σ2.avail p s = some true)).isEmpty then
            Except.error SelfErr.generic
          else Except.ok (((σ2.slots.insertionSort (· ≤ ·)).filter
              (fun s => σ2.avail p s = some true)).map
            (fun s => get_weekday_date (slotDay s) (slotTime s)))) := by
      unfold get_self_availability
      rw [if_neg (not_not.2 hparts2), hk2]
    constructor
    · rintro ⟨i, hi⟩
      have hiLt : i < (g.flatMap id).length := by
        by_contra hge
        rw [List.getElem?_eq_none (show (g.flatMap id).length ≤ i by omega)] at hi
        exact absurd hi (by simp)
      have hiL : i < (σ.slots.insertionSort (· ≤ ·)).length := by
        rw [hlen]
        exact hiLt
      obtain ⟨s, hs⟩ : ∃ s, (σ.slots.insertionSort (· ≤ ·))[i]? = some s :=
        ⟨_, List.getElem?_eq_getElem hiL⟩
      have hmem : s ∈ (σ2.slots.insertionSort (· ≤ ·)).filter
          (fun s => σ2.avail p s = some true) := (hmem_avs s).2 ⟨i, hs, hi⟩
      have hne : ¬ ((σ2.slots.insertionSort (· ≤ ·)).filter
          (fun s => σ2.avail p s = some true)).isEmpty = true := by
        intro hEq
        rw [List.isEmpty_iff] at hEq
        rw [hEq] at hmem
        exact absurd hmem (List.not_mem_nil _)
      rw [hself, if_neg hne]
      refine ⟨_, rfl, ?_, ?_⟩
      · rw [List.Sorted, List.pairwise_map]
        refine hsorted_avs.imp ?_
        intro a b hab
        have ha : get_weekday_date (slotDay a) (slotTime a) = a + 1440 := by
          unfold get_weekday_date slotDay slotTime
          omega
        have hb : get_weekday_date (slotDay b) (slotTime b) = b + 1440 := by
          unfold get_weekday_date slotDay slotTime
          omega
        rw [ha, hb]
        have hab2 : a < b := hab
        exact Nat.add_lt_add_right hab2 1440
      · intro x
        rw [List.mem_map]
        constructor
        · rintro ⟨s2, hs2, rfl⟩
          obtain ⟨i2, hi1, hi2⟩ := (hmem_avs s2).1 hs2
          exact ⟨i2, s2, hi1, hi2, rfl⟩
        · rintro ⟨i2, s2, hi1, hi2, rfl⟩
          exact ⟨s2, (hmem_avs s2).2 ⟨i2, hi1, hi2⟩, rfl⟩
    · intro hall
      have hnil : (σ2.slots.insertionSort (· ≤ ·)).filter
          (fun s => σ2.avail p s = some true) = [] := by
        rw [List.eq_nil_iff_forall_not_mem]
        intro s hmem
        obtain ⟨i2, h1, h2⟩ := (hmem_avs s).1 hmem
        exact hall i2 h2
      rw [hself, hnil]
      rfl

/-- Witness for C6 (amended) on `weekEvent`, submitting
`[[true, false, false, true]]`. -/
theorem submit_readback_roundtrip_witness :
    ∃ σ2, add_availability weekEvent 1 "Alice" "UTC" [[true, false, false, true]] true
        = (.ok true, σ2) ∧
      ∃ l, get_self_availability σ2 1 = .ok l ∧ l.Sorted (· < ·) ∧
        (∀ x, x ∈ l ↔ ∃ (i : Nat) (s : Slot),
          (weekEvent.slots.insertionSort (· ≤ ·))[i]? = some s ∧
          ([[true, false, false, true]].flatMap id)[i]? = some true ∧
          x = get_weekday_date (slotDay s) (slotTime s)) := by
  have h : add_availability weekEvent 1 "Alice" "UTC" [[true, false, false, true]] true
      = (.ok true, (add_availability weekEvent 1 "Alice" "UTC"
          [[true, false, false, true]] true).2) := by rfl
  obtain ⟨-, hgen⟩ := submit_readback_roundtrip weekEvent _ 1 "Alice" "UTC" _ true true
    (by decide) h
  obtain ⟨l, h1, h2, h3⟩ := (hgen rfl).1 ⟨0, by decide⟩
  exact ⟨_, h, l, h1, h2, h3⟩
